import Mathlib

/-!
Shallow embedding of the CommunityPulse dashboard core pipeline
(src/app.py): CSV load with required-column validation, numeric
coercion, score/community filtering, descending top-20 ranking,
title truncation for the bar chart, per-subreddit counting for the
pie chart, and the summary mean metric.

Modelling conventions:
  - a parsed CSV cell is numeric, textual, or missing (pandas NaN);
  - floats are modelled as rationals;
  - `pd.to_numeric(col, errors="coerce").fillna(0)` (app.py lines
    148-150) is `coerce`: numeric cells pass through, anything else
    becomes 0;
  - `DataFrame.sort_values(by, ascending=False)` goes through pandas
    `nargsort`, which reverses the values and the index array, takes
    the ascending argsort of the reversed values, and reverses the
    resulting indexer again; with a stable underlying sort this double
    reversal keeps rows of equal key in their original relative order
    (pandas pins this in its stable-descending sort tests).  The model
    therefore reverses the list, applies a stable ascending insertion
    sort, and reverses the result — exact wherever numpy's underlying
    sort behaves stably, as in its small-array insertion-sort regime;
  - `Series.value_counts()` (app.py line 230) drops NaN entries,
    counts occurrences of each remaining value (empty strings
    included, they are not NaN), and sorts by count descending via
    the same descending-sort path;
  - `st.cache_data` memoisation is an explicit association-list
    cache keyed by the load argument.
-/

namespace CommunityPulse

/-- One parsed CSV cell: a numeric value, a non-numeric string, or a
missing entry (pandas NaN). -/
inductive Cell where
  | num (q : ℚ)
  | str (s : String)
  | missing
deriving DecidableEq

/-- One raw CSV row, before numeric coercion.  The subreddit cell is
`none` when the CSV field is missing (NaN); titles are kept as plain
strings. -/
structure RawRow where
  title : String
  subreddit : Option String
  trending_score : Cell
  score : Cell
  num_comments : Cell
deriving DecidableEq

/-- A CSV source: the header row (column names) plus the data rows. -/
structure Source where
  header : List String
  rows : List RawRow
deriving DecidableEq

/-- The five required columns of app.py lines 88 and 97. -/
def expectedCols : List String :=
  ["title", "subreddit", "trending_score", "score", "num_comments"]

/-- The required columns absent from the header: app.py line 89,
`missing = expected - set(df.columns)`, as a list (expectedCols has
no duplicates, so this filter is the set difference). -/
def missingCols (src : Source) : List String :=
  expectedCols.filter (fun c => decide (c ∉ src.header))

/-- app.py lines 85-92 and 95-101 (`load_data_from_path` and
`load_data_from_buffer` run the same validation): parse the CSV and
fail, naming the missing columns, when any required column is absent. -/
def load_data (src : Source) : Except (List String) (List RawRow) :=
  if (missingCols src).isEmpty then Except.ok src.rows
  else Except.error (missingCols src)

/-- app.py lines 148-150: `pd.to_numeric(col, errors="coerce")`
turns every non-numeric cell into NaN and `.fillna(0)` replaces NaN
by zero, so a numeric cell survives and everything else becomes 0. -/
def coerce : Cell → ℚ
  | Cell.num q => q
  | Cell.str _ => 0
  | Cell.missing => 0

/-- A normalized row: numeric columns coerced (app.py lines 148-150). -/
structure Row where
  title : String
  subreddit : Option String
  trending_score : ℚ
  score : ℚ
  num_comments : ℚ
deriving DecidableEq

/-- Numeric normalization of one row (app.py lines 148-150). -/
def normalizeRow (r : RawRow) : Row :=
  { title := r.title
    subreddit := r.subreddit
    trending_score := coerce r.trending_score
    score := coerce r.score
    num_comments := coerce r.num_comments }

/-- Numeric normalization of the whole table. -/
def normalizeTable (rows : List RawRow) : List Row :=
  rows.map normalizeRow

/-- Load followed by the always-applied normalization step. -/
def loadNormalize (src : Source) : Except (List String) (List Row) :=
  (load_data src).map normalizeTable

/-- Explicit model of the `st.cache_data` memoisation on the loaders
(app.py lines 84 and 94): look the argument up in the cache, on a
miss compute and record the result. -/
def cachedLoad (cache : List (Source × Except (List String) (List Row)))
    (src : Source) :
    Except (List String) (List Row) × List (Source × Except (List String) (List Row)) :=
  match cache.find? (fun p => decide (p.1 = src)) with
  | some p => (p.2, cache)
  | none => (loadNormalize src, (src, loadNormalize src) :: cache)

/-- Two successive loads of the same source through the cache,
starting from an empty cache; returns the two results. -/
def loadTwice (src : Source) :
    Except (List String) (List Row) × Except (List String) (List Row) :=
  let first := cachedLoad [] src
  let second := cachedLoad first.2 src
  (first.1, second.1)

/-- Membership of a row's community in the allow-list: app.py line
163, `filtered["subreddit"].isin(selected_subs)`; a NaN subreddit is
never `isin` any list. -/
def subMem (r : Row) (subs : List String) : Bool :=
  match r.subreddit with
  | some s => decide (s ∈ subs)
  | none => false

/-- app.py lines 161-163: keep rows with `trending_score >=
min_trending_score`, then, only when the subreddit selection is
non-empty (`if selected_subs:`), keep rows whose subreddit is
selected. -/
def filteredRows (t : List Row) (minScore : ℚ) (subs : List String) : List Row :=
  let byScore := t.filter (fun r => decide (minScore ≤ r.trending_score))
  if subs.isEmpty then byScore
  else byScore.filter (fun r => subMem r subs)

/-- Stable insertion into an ascending-sorted list: a later element
is placed after the earlier elements of equal key. -/
def insertAsc {α κ : Type} [LinearOrder κ] (key : α → κ) (a : α) : List α → List α
  | [] => [a]
  | b :: l => if key a ≤ key b then a :: b :: l else b :: insertAsc key a l

/-- Stable ascending insertion sort by a key. -/
def sortAsc {α κ : Type} [LinearOrder κ] (key : α → κ) : List α → List α
  | [] => []
  | a :: l => insertAsc key a (sortAsc key l)

/-- pandas `sort_values(by, ascending=False)` (app.py line 166):
`nargsort` reverses the values and the index before taking the
ascending argsort and reverses the indexer after, so the descending
order is reverse-sort-reverse; with a stable ascending sort this
keeps equal-key rows in their original relative order (exact where
numpy's underlying sort is stable, e.g. its small-array insertion
sort regime). -/
def pandasSortDesc {α κ : Type} [LinearOrder κ] (key : α → κ) (l : List α) : List α :=
  (sortAsc key l.reverse).reverse

/-- The projected row of app.py lines 166-170: the five displayed
columns, with `num_comments` renamed to `comments`. -/
structure ProjRow where
  title : String
  subreddit : Option String
  trending_score : ℚ
  score : ℚ
  comments : ℚ
deriving DecidableEq

/-- Column selection and rename of app.py lines 167-168. -/
def project (r : Row) : ProjRow :=
  { title := r.title
    subreddit := r.subreddit
    trending_score := r.trending_score
    score := r.score
    comments := r.num_comments }

/-- app.py lines 166-170: sort by trending score descending, project
the display columns, keep the first n rows. -/
def top_n (t : List Row) (n : ℕ) : List ProjRow :=
  ((pandasSortDesc Row.trending_score t).take n).map project

/-- The `top20` table of app.py line 166 (n fixed at 20). -/
def top20 (t : List Row) : List ProjRow :=
  top_n t 20

/-- The mean of the trending scores (pandas `Series.mean`). -/
def meanTs (t : List Row) : ℚ :=
  ((t.map Row.trending_score).sum) / (t.length : ℚ)

/-- numpy rounding of a rational to the nearest integer, halves to
the even neighbour (`np.round` semantics). -/
def roundHalfEven (q : ℚ) : ℤ :=
  if q - (⌊q⌋ : ℚ) < 1 / 2 then ⌊q⌋
  else if 1 / 2 < q - (⌊q⌋ : ℚ) then ⌊q⌋ + 1
  else if ⌊q⌋ % 2 = 0 then ⌊q⌋ else ⌊q⌋ + 1

/-- `np.round(x, 2)`: round half-to-even at two decimal places. -/
def npRound2 (q : ℚ) : ℚ :=
  (roundHalfEven (q * 100) : ℚ) / 100

/-- app.py line 179: `np.round(filtered["trending_score"].mean(), 2)
if len(filtered) else 0.0`. -/
def avg_ts (t : List Row) : ℚ :=
  if t.length = 0 then 0 else npRound2 (meanTs t)

/-- app.py line 204: the shortened bar-chart label, the first 80
characters of the title with an ellipsis appended when the title is
longer than 80 characters (Python `len` counts code points, as
`List Char` length does). -/
def title_short (t : String) : String :=
  String.mk (t.data.take 80) ++ (if 80 < t.data.length then "…" else "")

/-- One bar-chart entry (app.py lines 203-217): the projected row
carried whole as tooltip metadata, plus the shortened label. -/
structure PlotRow where
  base : ProjRow
  label : String
deriving DecidableEq

/-- app.py lines 203-204: copy the top-20 table and add the
`title_short` column; nothing else is computed. -/
def mkPlot (top : List ProjRow) : List PlotRow :=
  top.map (fun r => { base := r, label := title_short r.title })

/-- The bar-chart view: a chart, or the explicit no-data message. -/
inductive BarView where
  | chart (rows : List PlotRow)
  | noData
deriving DecidableEq

/-- app.py lines 201-223: `if len(top20):` render the bar chart,
`else` show the no-data info message. -/
def barView (top : List ProjRow) : BarView :=
  if top.length = 0 then BarView.noData else BarView.chart (mkPlot top)

/-- Occurrence count of a value in a list (the counts produced by
`value_counts`). -/
def countVal (k : String) (l : List String) : ℕ :=
  (l.filter (fun v => decide (v = k))).length

/-- The distinct values of a list in order of first appearance (the
key order of the pandas hashtable behind `value_counts`). -/
def firstKeys : List String → List String
  | [] => []
  | v :: l => v :: (firstKeys l).filter (fun y => decide (y ≠ v))

/-- app.py lines 230-231: `filtered["subreddit"].value_counts()` —
drop the NaN subreddits, count occurrences of every remaining value,
and sort by count descending (pandas sorts the counts with
`ascending=False` through the same descending-sort path). -/
def sub_counts (t : List Row) : List (String × ℕ) :=
  let vals := t.filterMap Row.subreddit
  pandasSortDesc (fun p => p.2) ((firstKeys vals).map (fun k => (k, countVal k vals)))

/-- The pie-chart view: a chart, or the explicit no-data message. -/
inductive PieView where
  | chart (counts : List (String × ℕ))
  | noData
deriving DecidableEq

/-- app.py lines 229-250: `if len(filtered):` compute `sub_counts`
and render the pie chart, `else` show the no-data info message. -/
def pieView (t : List Row) : PieView :=
  if t.length = 0 then PieView.noData else PieView.chart (sub_counts t)

end CommunityPulse

namespace CommunityPulse

/-! Helper lemmas about the insertion sort and the key-respecting
filter, used by several claim theorems below. -/

theorem perm_insertAsc {α κ : Type} [LinearOrder κ] (key : α → κ) (a : α) (l : List α) :
    List.Perm (insertAsc key a l) (a :: l) := by
  induction l with
  | nil => exact List.Perm.refl _
  | cons b l ih =>
    simp only [insertAsc]
    split
    · exact List.Perm.refl _
    · exact (ih.cons b).trans (List.Perm.swap a b l)

theorem perm_sortAsc {α κ : Type} [LinearOrder κ] (key : α → κ) (l : List α) :
    List.Perm (sortAsc key l) l := by
  induction l with
  | nil => exact List.Perm.refl _
  | cons a l ih => exact (perm_insertAsc key a (sortAsc key l)).trans (ih.cons a)

theorem sorted_insertAsc {α κ : Type} [LinearOrder κ] (key : α → κ) (a : α) (l : List α)
    (h : l.Pairwise (fun x y => key x ≤ key y)) :
    (insertAsc key a l).Pairwise (fun x y => key x ≤ key y) := by
  induction l with
  | nil => simp [insertAsc]
  | cons b l ih =>
    rcases List.pairwise_cons.mp h with ⟨hb, hl⟩
    simp only [insertAsc]
    split
    · rename_i hab
      refine List.pairwise_cons.mpr ⟨?_, h⟩
      intro z hz
      rcases List.mem_cons.mp hz with rfl | hz
      · exact hab
      · exact le_trans hab (hb z hz)
    · rename_i hab
      refine List.pairwise_cons.mpr ⟨?_, ih hl⟩
      intro z hz
      have hz2 : z = a ∨ z ∈ l := by
        have := (perm_insertAsc key a l).mem_iff.mp hz
        simpa using this
      rcases hz2 with rfl | hz2
      · exact (not_le.mp hab).le
      · exact hb z hz2

theorem sorted_sortAsc {α κ : Type} [LinearOrder κ] (key : α → κ) (l : List α) :
    (sortAsc key l).Pairwise (fun x y => key x ≤ key y) := by
  induction l with
  | nil => simp [sortAsc]
  | cons a l ih => exact sorted_insertAsc key a (sortAsc key l) ih

theorem perm_pandasSortDesc {α κ : Type} [LinearOrder κ] (key : α → κ) (l : List α) :
    List.Perm (pandasSortDesc key l) l := by
  exact ((List.reverse_perm _).trans (perm_sortAsc key l.reverse)).trans (List.reverse_perm l)

theorem sorted_pandasSortDesc {α κ : Type} [LinearOrder κ] (key : α → κ) (l : List α) :
    (pandasSortDesc key l).Pairwise (fun x y => key y ≤ key x) := by
  rw [pandasSortDesc, List.pairwise_reverse]
  exact sorted_sortAsc key l.reverse

end CommunityPulse

namespace CommunityPulse

/-! Helper lemmas about occurrence counts and first-appearance keys. -/

theorem countVal_nil (k : String) : countVal k [] = 0 := rfl

theorem countVal_cons (k v : String) (l : List String) :
    countVal k (v :: l) = (if v = k then 1 else 0) + countVal k l := by
  simp only [countVal, List.filter_cons]
  by_cases h : v = k
  · simp [h]
    omega
  · simp [h]

theorem countVal_pos (k : String) (l : List String) (h : k ∈ l) :
    0 < countVal k l := by
  induction l with
  | nil => cases h
  | cons v l ih =>
    rcases List.mem_cons.mp h with rfl | h2
    · simp [countVal_cons]
    · have := ih h2
      rw [countVal_cons]
      omega

theorem mem_firstKeys (x : String) (l : List String) : x ∈ firstKeys l ↔ x ∈ l := by
  induction l with
  | nil => simp [firstKeys]
  | cons v l ih =>
    simp only [firstKeys, List.mem_cons, List.mem_filter, decide_eq_true_eq]
    constructor
    · rintro (rfl | ⟨hx, _⟩)
      · exact Or.inl rfl
      · exact Or.inr (ih.mp hx)
    · rintro (rfl | hx)
      · exact Or.inl rfl
      · by_cases hxv : x = v
        · exact Or.inl hxv
        · exact Or.inr ⟨ih.mpr hx, hxv⟩

theorem nodup_firstKeys (l : List String) : (firstKeys l).Nodup := by
  induction l with
  | nil => simp [firstKeys]
  | cons v l ih =>
    refine List.nodup_cons.mpr ⟨?_, ih.filter _⟩
    intro hv
    have := (List.mem_filter.mp hv).2
    simp at this

theorem sum_map_add (f g : String → ℕ) (l : List String) :
    (l.map (fun x => f x + g x)).sum = (l.map f).sum + (l.map g).sum := by
  induction l with
  | nil => rfl
  | cons x l ih => simp [ih]; omega

theorem sum_ite_zero (x : String) (keys : List String) (hx : x ∉ keys) :
    (keys.map (fun k => if x = k then 1 else 0)).sum = 0 := by
  induction keys with
  | nil => rfl
  | cons k ks ih =>
    have hxk : x ≠ k := fun h => hx (h ▸ List.mem_cons_self k ks)
    have hxs : x ∉ ks := fun h => hx (List.mem_cons_of_mem k h)
    simp [hxk, ih hxs]

theorem sum_ite_one (x : String) (keys : List String) (hnd : keys.Nodup) (hx : x ∈ keys) :
    (keys.map (fun k => if x = k then 1 else 0)).sum = 1 := by
  induction keys with
  | nil => cases hx
  | cons k ks ih =>
    rcases List.nodup_cons.mp hnd with ⟨hk, hks⟩
    rcases List.mem_cons.mp hx with rfl | hx2
    · have : x ∉ ks := hk
      simp [sum_ite_zero x ks this]
    · have hxk : x ≠ k := fun h => hk (h ▸ hx2)
      simp [hxk, ih hks hx2]

theorem sum_counts (vals : List String) :
    ∀ keys : List String, keys.Nodup → (∀ v ∈ vals, v ∈ keys) →
      (keys.map (fun k => countVal k vals)).sum = vals.length := by
  induction vals with
  | nil =>
    intro keys _ _
    simp [countVal_nil]
  | cons v vs ih =>
    intro keys hnd hcov
    have hv : v ∈ keys := hcov v (List.mem_cons_self v vs)
    have hcov2 : ∀ w ∈ vs, w ∈ keys := fun w hw => hcov w (List.mem_cons_of_mem v hw)
    have hfun : (fun k => countVal k (v :: vs)) =
        (fun k => (if v = k then 1 else 0) + countVal k vs) := by
      funext k
      exact countVal_cons k v vs
    rw [hfun, sum_map_add, sum_ite_one v keys hnd hv, ih keys hnd hcov2]
    simp [Nat.add_comm]

end CommunityPulse

namespace CommunityPulse

/-! Concrete rows and sources used by witnesses and counterexamples. -/

/-- A row with trending score 90 from community aww. -/
def cexRowA : Row :=
  { title := "A", subreddit := some "aww", trending_score := 90, score := 1, num_comments := 1 }

/-- A second row, also trending score 90, from community news. -/
def cexRowB : Row :=
  { title := "B", subreddit := some "news", trending_score := 90, score := 2, num_comments := 2 }

/-- A single row whose trending score 50 misses a threshold of 100. -/
def loneRow : Row :=
  { title := "w", subreddit := some "aww", trending_score := 50, score := 1, num_comments := 1 }

/-- A source whose header lacks exactly the trending_score column. -/
def srcMissing : Source :=
  { header := ["title", "subreddit", "score", "num_comments"], rows := [] }

/-- A source with all five required columns and one row. -/
def srcFull : Source :=
  { header := expectedCols
    rows := [{ title := "t", subreddit := some "aww", trending_score := Cell.num 90,
               score := Cell.num 1, num_comments := Cell.num 2 }] }

/-- A raw row whose trending_score cell is the unparseable text n/a. -/
def naRow : RawRow :=
  { title := "x", subreddit := some "aww", trending_score := Cell.str "n/a",
    score := Cell.num 5, num_comments := Cell.missing }

/-- A row whose community is the empty string (not NaN). -/
def emptySubRow : Row :=
  { title := "t", subreddit := some "", trending_score := 90, score := 0, num_comments := 0 }

/-- C1: the filter retains exactly the rows with trending_score >= m;
a non-empty allow-list additionally restricts to member communities,
and an empty allow-list applies no community restriction: the two
source filters (app.py lines 161-163) equal one combined row filter,
with the empty-allow-list case and the row-membership
characterisation spelled out. -/
theorem claim_c1_filter (t : List Row) (m : ℚ) (A : List String) :
    filteredRows t m A =
      t.filter (fun r => decide (m ≤ r.trending_score) && (A.isEmpty || subMem r A)) ∧
    (A = [] → filteredRows t m A = t.filter (fun r => decide (m ≤ r.trending_score))) ∧
    (∀ r : Row, r ∈ filteredRows t m A ↔
      r ∈ t ∧ m ≤ r.trending_score ∧ (A ≠ [] → subMem r A = true)) := by
  have hmain : filteredRows t m A =
      t.filter (fun r => decide (m ≤ r.trending_score) && (A.isEmpty || subMem r A)) := by
    cases A with
    | nil => simp [filteredRows]
    | cons a A0 =>
      simp only [filteredRows, List.isEmpty_cons, Bool.false_eq_true, if_false,
        Bool.false_or, List.filter_filter]
      refine List.filter_congr ?_
      intro x hx
      rw [Bool.and_comm]
  refine ⟨hmain, ?_, ?_⟩
  · intro hA
    subst hA
    simp [filteredRows]
  · intro r
    rw [hmain, List.mem_filter]
    cases A with
    | nil => simp
    | cons a A0 =>
      simp only [List.isEmpty_cons, Bool.false_or, Bool.and_eq_true, decide_eq_true_eq,
        ne_eq, reduceCtorEq, not_false_iff, true_implies, and_assoc]

/-- C1 witness: with the table holding only a score-50 row, threshold
0 and an empty allow-list keep the row, threshold 100 drops it, and
the allow-list restriction applies when non-empty. -/
theorem claim_c1_filter_witness :
    filteredRows [loneRow] 0 [] = [loneRow].filter (fun r => decide ((0 : ℚ) ≤ r.trending_score)) ∧
    (loneRow ∈ filteredRows [loneRow] 0 ["aww"] ↔
      loneRow ∈ [loneRow] ∧ (0 : ℚ) ≤ loneRow.trending_score ∧
        ((["aww"] : List String) ≠ [] → subMem loneRow ["aww"] = true)) := by
  refine ⟨(claim_c1_filter [loneRow] 0 []).2.1 rfl, (claim_c1_filter [loneRow] 0 ["aww"]).2.2 loneRow⟩

/-- C3: load fails naming exactly the absent required columns, and
succeeds when all five are present. -/
theorem claim_c3_load (src : Source) :
    ((∀ c ∈ expectedCols, c ∈ src.header) → load_data src = Except.ok src.rows) ∧
    (∀ c ∈ expectedCols, c ∉ src.header →
      load_data src = Except.error (missingCols src) ∧
      missingCols src ≠ [] ∧
      (∀ d, d ∈ missingCols src ↔ (d ∈ expectedCols ∧ d ∉ src.header))) := by
  constructor
  · intro h
    have hnil : missingCols src = [] := by
      rw [missingCols, List.filter_eq_nil_iff]
      intro c hc
      simp only [decide_eq_true_eq, not_not]
      exact h c hc
    simp [load_data, hnil]
  · intro c hc hcn
    have hmem : c ∈ missingCols src := by
      rw [missingCols, List.mem_filter]
      exact ⟨hc, by simpa using hcn⟩
    have hne : missingCols src ≠ [] := List.ne_nil_of_mem hmem
    refine ⟨?_, hne, ?_⟩
    · have hfalse : (missingCols src).isEmpty = false := by
        cases hmc : missingCols src with
        | nil => exact absurd hmc hne
        | cons x xs => rfl
      simp [load_data, hfalse]
    · intro d
      rw [missingCols, List.mem_filter]
      simp

/-- C3 witness: a source lacking only trending_score fails naming
exactly that column; the full-header source loads its rows. -/
theorem claim_c3_load_witness :
    load_data srcFull = Except.ok srcFull.rows ∧
    load_data srcMissing = Except.error ["trending_score"] ∧
    ("trending_score" ∈ missingCols srcMissing ∧ "title" ∉ missingCols srcMissing) := by
  have h1 := (claim_c3_load srcFull).1 (by decide)
  have h2 := (claim_c3_load srcMissing).2 "trending_score" (by decide) (by decide)
  have hval : missingCols srcMissing = ["trending_score"] := by decide
  refine ⟨h1, ?_, ?_⟩
  · rw [h2.1, hval]
  · rw [hval]
    exact ⟨List.mem_singleton.mpr rfl, by decide⟩

/-- C4: numeric coercion is total, replaces non-numeric and missing
cells by 0 and keeps numeric cells; a row whose trending_score cell
reads n/a normalizes to 0 and is dropped by every filter with a
positive threshold. -/
theorem claim_c4_coerce (r : RawRow) (m : ℚ) (A : List String)
    (hr : r.trending_score = Cell.str "n/a") :
    (∀ s, coerce (Cell.str s) = 0) ∧ coerce Cell.missing = 0 ∧
    (∀ q, coerce (Cell.num q) = q) ∧
    (normalizeRow r).trending_score = 0 ∧
    (0 < m → filteredRows [normalizeRow r] m A = []) := by
  have h0 : (normalizeRow r).trending_score = 0 := by
    simp [normalizeRow, hr, coerce]
  refine ⟨fun s => rfl, rfl, fun q => rfl, h0, ?_⟩
  intro hm
  have hng : ¬ (m ≤ (normalizeRow r).trending_score) := by
    rw [h0]
    exact not_le.mpr hm
  have hfe : ([normalizeRow r].filter fun x => decide (m ≤ x.trending_score)) = [] := by
    rw [List.filter_eq_nil_iff]
    intro a ha
    rw [List.mem_singleton.mp ha]
    simpa using hng
  simp only [filteredRows, hfe]
  split
  · rfl
  · rfl

/-- C4 witness: the concrete n/a row normalizes to trending score 0
and is excluded at threshold 1. -/
theorem claim_c4_coerce_witness :
    (normalizeRow naRow).trending_score = 0 ∧
    filteredRows [normalizeRow naRow] 1 [] = [] := by
  have h := claim_c4_coerce naRow 1 [] rfl
  exact ⟨h.2.2.2.1, h.2.2.2.2 (by norm_num)⟩

end CommunityPulse

namespace CommunityPulse

/-- C5 counterexample: a filtered table whose only row has the empty
string as community.  `value_counts` drops only NaN, so the empty
string is counted as a regular community, the counts sum to 1, and
the number of rows with a non-empty community is 0 — against the
claim, the empty-string row is not excluded. -/
theorem claim_c5_cex :
    sub_counts [emptySubRow] = [("", 1)] ∧
    ((sub_counts [emptySubRow]).map Prod.snd).sum = 1 ∧
    (([emptySubRow].filterMap Row.subreddit).filter (fun s => decide (s ≠ ""))).length = 0 := by
  decide

/-- C5 amended: the community counts exclude rows with a missing
(NaN) community but count empty-string communities like any other
value; the counts sum to the number of filtered rows with a
non-missing community, every listed count is positive and correct,
and no community is listed twice. -/
theorem claim_c5_counts (t : List Row) :
    ((sub_counts t).map Prod.snd).sum = (t.filterMap Row.subreddit).length ∧
    (∀ p, p ∈ sub_counts t → 0 < p.2 ∧ p.2 = countVal p.1 (t.filterMap Row.subreddit) ∧
      some p.1 ∈ t.map Row.subreddit) ∧
    ((sub_counts t).map Prod.fst).Nodup := by
  have hperm : List.Perm (sub_counts t)
      ((firstKeys (t.filterMap Row.subreddit)).map
        (fun k => (k, countVal k (t.filterMap Row.subreddit)))) := by
    simp only [sub_counts]
    exact perm_pandasSortDesc _ _
  refine ⟨?_, ?_, ?_⟩
  · have h1 := (hperm.map Prod.snd).sum_eq
    rw [h1, List.map_map]
    exact sum_counts (t.filterMap Row.subreddit) (firstKeys (t.filterMap Row.subreddit))
      (nodup_firstKeys _) (fun v hv => (mem_firstKeys v _).mpr hv)
  · intro p hp
    have hp2 := hperm.mem_iff.mp hp
    obtain ⟨k, hk, rfl⟩ := List.mem_map.mp hp2
    have hkv : k ∈ t.filterMap Row.subreddit := (mem_firstKeys k _).mp hk
    refine ⟨countVal_pos k _ hkv, rfl, ?_⟩
    obtain ⟨r, hr, hrk⟩ := List.mem_filterMap.mp hkv
    exact List.mem_map.mpr ⟨r, hr, hrk⟩
  · rw [(hperm.map Prod.fst).nodup_iff, List.map_map]
    have h3 : ((firstKeys (t.filterMap Row.subreddit)).map
        (Prod.fst ∘ fun k => (k, countVal k (t.filterMap Row.subreddit)))) =
        firstKeys (t.filterMap Row.subreddit) := List.map_id _
    rw [h3]
    exact nodup_firstKeys _

/-- C5 witness: on the two-row aww/news table the counts sum to the
number of rows with a community, and the news entry is positive,
correct and community-backed. -/
theorem claim_c5_counts_witness :
    ((sub_counts [cexRowA, cexRowB]).map Prod.snd).sum =
      ([cexRowA, cexRowB].filterMap Row.subreddit).length ∧
    (0 < (("news", 1) : String × ℕ).2 ∧
      (("news", 1) : String × ℕ).2 =
        countVal "news" ([cexRowA, cexRowB].filterMap Row.subreddit) ∧
      some "news" ∈ [cexRowA, cexRowB].map Row.subreddit) := by
  have h := claim_c5_counts [cexRowA, cexRowB]
  exact ⟨h.1, h.2.1 ("news", 1) (by decide)⟩

/-- C6: when the filter state matches no rows, the pipeline stays
total: the top-20 projection is empty, the community counts are
empty, and both chart views render their explicit no-data state. -/
theorem claim_c6_empty (t : List Row) (m : ℚ) (A : List String)
    (h : filteredRows t m A = []) :
    top20 (filteredRows t m A) = [] ∧
    sub_counts (filteredRows t m A) = [] ∧
    barView (top20 (filteredRows t m A)) = BarView.noData ∧
    pieView (filteredRows t m A) = PieView.noData := by
  rw [h]
  exact ⟨rfl, rfl, rfl, rfl⟩

/-- C6 witness: threshold 100 over a single score-50 row matches
nothing and every consumer renders its no-data state. -/
theorem claim_c6_empty_witness :
    top20 (filteredRows [loneRow] 100 []) = [] ∧
    sub_counts (filteredRows [loneRow] 100 []) = [] ∧
    barView (top20 (filteredRows [loneRow] 100 [])) = BarView.noData ∧
    pieView (filteredRows [loneRow] 100 []) = PieView.noData :=
  claim_c6_empty [loneRow] 100 [] (by decide)

/-- C7: loading the same unchanged source twice (through the
memoising cache) yields the very same normalized table both times,
equal to the direct load-and-normalize of the source. -/
theorem claim_c7_cache (src : Source) :
    (loadTwice src).1 = loadNormalize src ∧ (loadTwice src).2 = loadNormalize src := by
  constructor
  · rfl
  · show (cachedLoad (cachedLoad [] src).2 src).1 = loadNormalize src
    have h2 : (cachedLoad [] src).2 = [(src, loadNormalize src)] := rfl
    rw [h2]
    unfold cachedLoad
    rw [List.find?_cons_of_pos _ (by simp)]

/-- C8: the bar-chart label is the first 80 characters of the title,
with the ellipsis appended exactly when the title is longer than 80
characters (an 80-character title is unchanged); the plot rows carry
the projected rows whole, and building them is pure reshaping of the
top-20 output. -/
theorem claim_c8_title (s : String) (top : List ProjRow) :
    (s.data.length ≤ 80 → title_short s = s) ∧
    (80 < s.data.length → title_short s = String.mk (s.data.take 80) ++ "…") ∧
    (mkPlot top).map PlotRow.base = top ∧
    (mkPlot top).map PlotRow.label = top.map (fun r => title_short r.title) := by
  refine ⟨?_, ?_, ?_, ?_⟩
  · intro h
    have hnot : ¬ (80 < s.data.length) := not_lt.mpr h
    unfold title_short
    rw [if_neg hnot, List.take_of_length_le h]
    have h1 : String.mk s.data = s := by
      cases s
      rfl
    rw [h1]
    exact String.append_empty s
  · intro h
    unfold title_short
    rw [if_pos h]
  · simp only [mkPlot, List.map_map]
    exact List.map_id _
  · simp [mkPlot]

/-- C8 witness: a 3-character title is unchanged and an 81-character
title is cut at 80 characters with the ellipsis appended. -/
theorem claim_c8_title_witness :
    title_short (String.mk (List.replicate 3 'a')) = String.mk (List.replicate 3 'a') ∧
    title_short (String.mk (List.replicate 81 'x')) =
      String.mk ((String.mk (List.replicate 81 'x')).data.take 80) ++ "…" :=
  ⟨(claim_c8_title (String.mk (List.replicate 3 'a')) []).1 (by decide),
   (claim_c8_title (String.mk (List.replicate 81 'x')) []).2.1 (by decide)⟩

/-- C9: the mean-trending-score metric is 0 on an empty filtered
table (no NaN, no error) and otherwise the mean of the filtered
trending scores rounded to 2 decimals (numpy half-to-even). -/
theorem claim_c9_avg (t : List Row) :
    (t = [] → avg_ts t = 0) ∧
    (t ≠ [] → avg_ts t = npRound2 ((t.map Row.trending_score).sum / (t.length : ℚ))) := by
  constructor
  · intro h
    subst h
    rfl
  · intro h
    have hlen : t.length ≠ 0 := fun h0 => h (List.length_eq_zero.mp h0)
    unfold avg_ts meanTs
    rw [if_neg hlen]

/-- C9 witness: the metric is 0 on the empty table and the rounded
mean on a one-row table. -/
theorem claim_c9_avg_witness :
    avg_ts [] = 0 ∧
    avg_ts [loneRow] =
      npRound2 (([loneRow].map Row.trending_score).sum / (([loneRow] : List Row).length : ℚ)) :=
  ⟨(claim_c9_avg []).1 rfl, (claim_c9_avg [loneRow]).2 (by simp)⟩

/-- C10: the community-count output is ordered by descending count
(and, being a pure function of the filtered table, is the same
sequence on every run). -/
theorem claim_c10_sorted (t : List Row) :
    (sub_counts t).Pairwise (fun a b => b.2 ≤ a.2) := by
  simp only [sub_counts]
  exact sorted_pandasSortDesc (fun p : String × ℕ => p.2) _

end CommunityPulse
